import Mathlib

/-!
Shallow embedding of the Markov-chain simulation engine
(`app/models/markov.py`, `app/models/agent.py`, `app/models/simulation.py`,
`app/database.py`, `app/markov_simulator.py`).

Conventions of the embedding:
* Python `float` weights and latencies are modelled as exact rationals `ℚ`.
* Python `dict`s are modelled as insertion-ordered association lists; lookup
  returns the value of the first matching key (`alookup`).
* `UUID` values and `datetime` values are modelled as natural numbers; the
  wall clock is a monotone counter stored in the database state, bumped by
  every `datetime.now()` call.
* Pydantic validation (which raises on the first failing check) is modelled
  by `Except ValidationError`.
* The network is an oracle `Agent → Except NotifyError AgentResponse`
  giving each notification's predetermined outcome, and a completion-order
  list of task indices; `asyncio.gather` is modelled by collecting results
  in completion order and then reading them back positionally.
-/

namespace MChain

/-- Association-list lookup: Python `dict[k]` / `dict.get(k)`. -/
def alookup {κ α : Type} [DecidableEq κ] (k : κ) : List (κ × α) → Option α
  | [] => none
  | (k', v) :: rest => if k = k' then some v else alookup k rest

/-- Association-list insert-or-replace: Python `dict[k] = v`. -/
def assocSet {κ α : Type} [DecidableEq κ] (k : κ) (v : α) : List (κ × α) → List (κ × α)
  | [] => [(k, v)]
  | (k', v') :: rest => if k' = k then (k, v) :: rest else (k', v') :: assocSet k v rest

/-- HTTP methods allowed by the `Literal` annotation on `State.http_method`. -/
inductive HttpMethod : Type
  | GET | POST | PUT | DELETE | PATCH
deriving DecidableEq, Repr

/-- Payloads (`Dict[str, Any]`): the engine never inspects values, so they
are modelled as string key-value pairs. -/
abbrev Payload := List (String × String)

/-- Model of `State` from `app/models/markov.py`: name, ordered transition mapping
(destination name to weight), HTTP method and payload. -/
structure State : Type where
  name : String
  transitions : List (String × ℚ)
  http_method : HttpMethod
  payload : Payload
deriving DecidableEq, Repr

/-- Raw state data before pydantic validation runs. -/
structure StateDraft : Type where
  name : String
  transitions : List (String × ℚ)
  http_method : HttpMethod
  payload : Payload
deriving DecidableEq, Repr

/-- Errors raised by pydantic validation of `State` / `MarkovChain`. -/
inductive ValidationError : Type
  | weightSum (total : ℚ)
  | initialNotFound (initial : String)
  | danglingTarget (stateName target : String)
deriving DecidableEq, Repr

/-- Model of `State.validate_transitions`: asserts `0.99 <= sum(v.values()) <= 1.01`. -/
def validateTransitions (v : List (String × ℚ)) : Except ValidationError (List (String × ℚ)) :=
  let total : ℚ := (v.map Prod.snd).sum
  if 99/100 ≤ total ∧ total ≤ 101/100 then Except.ok v
  else Except.error (ValidationError.weightSum total)

/-- Constructing a `State`: pydantic runs `validate_transitions` on the
`transitions` field and otherwise copies the draft's fields unchanged. -/
def mkState (d : StateDraft) : Except ValidationError State :=
  (validateTransitions d.transitions).map
    (fun t => { name := d.name, transitions := t,
                http_method := d.http_method, payload := d.payload })

/-- Model of `MarkovChain` from `app/models/markov.py`. -/
structure MarkovChain : Type where
  id : ℕ
  states : List (String × State)
  initial_state : String
  name : Option String
  description : Option String
deriving DecidableEq, Repr

/-- Validate every state of a chain draft in order, stopping at the first
failure (each `State(**state_data)` construction can raise). -/
def buildStates : List (String × StateDraft) → Except ValidationError (List (String × State))
  | [] => Except.ok []
  | (n, d) :: rest =>
    match mkState d with
    | Except.error e => Except.error e
    | Except.ok s =>
      match buildStates rest with
      | Except.error e => Except.error e
      | Except.ok ss => Except.ok ((n, s) :: ss)

/-- Search a chain's states for the first transition target that is not a
declared state key (the loop of `validate_states_and_transitions`). -/
def findDangling (keys : List String) : List (String × State) → Option (String × String)
  | [] => none
  | (n, st) :: rest =>
    match st.transitions.find? (fun t => ¬ keys.contains t.1) with
    | some t => some (n, t.1)
    | none => findDangling keys rest

/-- Model of `MarkovChain` construction: validate each state, then
`validate_states_and_transitions` checks the initial state is a declared key
and every transition target is a declared key. -/
def mkMarkovChain (id : ℕ) (drafts : List (String × StateDraft)) (initial : String)
    (nm ds : Option String) : Except ValidationError MarkovChain :=
  match buildStates drafts with
  | Except.error e => Except.error e
  | Except.ok states =>
    if (alookup initial states).isSome then
      match findDangling (states.map Prod.fst) states with
      | some (n, t) => Except.error (ValidationError.danglingTarget n t)
      | none =>
        Except.ok { id := id, states := states, initial_state := initial,
                    name := nm, description := ds }
    else Except.error (ValidationError.initialNotFound initial)

/-- The accumulating loop of `MarkovSimulator._choose_next_state`:
walk the transitions, adding each weight to the running sum `c`, and return
the first name at which `rand <= cumulative`. -/
def chooseLoop : List (String × ℚ) → ℚ → ℚ → Option String
  | [], _, _ => none
  | (n, p) :: rest, r, c =>
    let c' := c + p
    if r ≤ c' then some n else chooseLoop rest r c'

/-- Model of `MarkovSimulator._choose_next_state`: empty transitions yield the
state's own name; otherwise run the cumulative loop on the drawn value `r`,
falling back to the last transition key (`list(...)[-1]`). -/
def chooseNextState (st : State) (r : ℚ) : String :=
  match st.transitions with
  | [] => st.name
  | t :: ts =>
    match chooseLoop (t :: ts) r 0 with
    | some n => n
    | none => ((t :: ts).map Prod.fst).getLast (by simp)

/-- Index of the first transition whose cumulative weight sum (offset by
`c`) reaches `r` — the specification-side reading of the sampler. -/
def specFind (ts : List (String × ℚ)) (r c : ℚ) : Option ℕ :=
  (List.range ts.length).find?
    (fun i => decide (r ≤ c + ((ts.take (i + 1)).map Prod.snd).sum))

/-- Specification-side sampler: the first transition in iteration order
whose cumulative weight sum is ≥ r, else the last transition in iteration
order. -/
def specChoose (ts : List (String × ℚ)) (r : ℚ) : Option String :=
  match specFind ts r 0 with
  | some i => (ts.map Prod.fst).get? i
  | none => (ts.map Prod.fst).getLast?

/-- Model of `Agent` from `app/models/agent.py`. -/
structure Agent : Type where
  id : ℕ
  url : String
  name : String
  description : Option String
  created_at : ℕ
  active : Bool
deriving DecidableEq, Repr

/-- Model of `AgentResponse` from `app/models/agent.py`. -/
structure AgentResponse : Type where
  agent_id : ℕ
  agent_name : String
  data : Payload
  http_status : ℕ
  latency_ms : ℚ
deriving DecidableEq, Repr

/-- Exceptions a notification task can end in (timeouts, connection
failures, any transport error raised out of `_notify_agent`), plus the
`AssertionError` of the `assert agent.active` precondition. -/
inductive NotifyError : Type
  | timeout
  | connectFailure
  | transportError
  | assertNotActive (agentId : ℕ)
deriving DecidableEq, Repr

/-- Model of `SimulationStep` from `app/models/agent.py`. -/
structure SimulationStep : Type where
  state_name : String
  http_method : HttpMethod
  payload : Payload
  agent_responses : List AgentResponse
  timestamp : ℕ
deriving DecidableEq, Repr

/-- Model of `MarkovSimulator._notify_agent` for one agent, with the network's
outcome supplied by the oracle: the body first runs `assert agent.active`,
then performs the HTTP call whose result (an `AgentResponse`, or the raised
exception) the oracle predetermines. -/
def notifyAgent (oracle : Agent → Except NotifyError AgentResponse) (a : Agent) :
    Except NotifyError AgentResponse :=
  if a.active then oracle a else Except.error (NotifyError.assertNotActive a.id)

/-- Results of the concurrent tasks as they arrive: the completion-order
list of `(task index, task result)` pairs. -/
def arrivals {α : Type} (tasks : List α) (completion : List ℕ) : List (ℕ × α) :=
  completion.filterMap (fun i => (tasks.get? i).map (fun r => (i, r)))

/-- Model of `asyncio.gather(..., return_exceptions=True)`: each task's result is
recorded at the task's own index as it completes, and the aggregate list is
read back positionally — so the output order is the input order of the
awaitables, whatever the completion order was. -/
def gather {α : Type} (tasks : List α) (completion : List ℕ) : List α :=
  (List.range tasks.length).filterMap (fun i => alookup i (arrivals tasks completion))

/-- The successful results in completion order (what the step's response
list would be if it reflected completion order). -/
def completionOrderResponses (agents : List Agent)
    (oracle : Agent → Except NotifyError AgentResponse) (completion : List ℕ) :
    List AgentResponse :=
  (arrivals (agents.map (notifyAgent oracle)) completion).filterMap
    (fun p => p.2.toOption)

/-- Model of `MarkovSimulator._execute_step`: build the step shell from the state,
gather all notifications concurrently, then append every non-exception
result (in the gathered order) to the step's response list. -/
def executeStep (st : State) (agents : List Agent)
    (oracle : Agent → Except NotifyError AgentResponse)
    (ts : ℕ) (completion : List ℕ) : SimulationStep :=
  let results := gather (agents.map (notifyAgent oracle)) completion
  { state_name := st.name
    http_method := st.http_method
    payload := st.payload
    agent_responses := results.filterMap Except.toOption
    timestamp := ts }

/-- Model of `Simulation` from `app/models/simulation.py`. -/
structure Simulation : Type where
  id : ℕ
  chain_id : ℕ
  steps : List SimulationStep
  start_time : ℕ
  end_time : Option ℕ
deriving DecidableEq, Repr

/-- The in-memory store of `app/database.py`, plus the monotone wall
clock read by `datetime.now()`. -/
structure DB : Type where
  markov_chains : List (ℕ × MarkovChain)
  agents : List (ℕ × Agent)
  simulations : List (ℕ × Simulation)
  clock : ℕ
deriving Repr

/-- Model of `datetime.now()`: read the clock and advance it. -/
def nowTick (db : DB) : ℕ × DB :=
  (db.clock, { db with clock := db.clock + 1 })

/-- Model of `Database.get_markov_chain`. -/
def getMarkovChain (db : DB) (chainId : ℕ) : Option MarkovChain :=
  alookup chainId db.markov_chains

/-- Model of `Database.get_active_agents`: the agents whose `active` flag is set. -/
def getActiveAgents (db : DB) : List Agent :=
  (db.agents.map Prod.snd).filter (fun a => a.active)

/-- Model of `Database.create_simulation`. -/
def createSimulation (db : DB) (sim : Simulation) : DB :=
  { db with simulations := assocSet sim.id sim db.simulations }

/-- Model of `Database.add_step_to_simulation`: append the step to the stored
simulation's step list, if the simulation exists. -/
def addStepToSimulation (db : DB) (simId : ℕ) (step : SimulationStep) :
    Option Simulation × DB :=
  match alookup simId db.simulations with
  | none => (none, db)
  | some sim =>
    let sim' := { sim with steps := sim.steps ++ [step] }
    (some sim', { db with simulations := assocSet simId sim' db.simulations })

/-- Model of `Database.complete_simulation`: set `end_time = datetime.now()` on the
stored simulation, if it exists. -/
def completeSimulation (db : DB) (simId : ℕ) : Option Simulation × DB :=
  match alookup simId db.simulations with
  | none => (none, db)
  | some sim =>
    let (t, db') := nowTick db
    let sim' := { sim with end_time := some t }
    (some sim', { db' with simulations := assocSet simId sim' db'.simulations })

/-- Failures of `run_simulation`: the 404 for an unknown chain, the
`KeyError` on a missing state key, and the final `assert simulation is not
None`. -/
inductive SimError : Type
  | chainNotFound (chainId : ℕ)
  | missingState (name : String)
  | simulationRemoved
deriving DecidableEq, Repr

/-- The `for _ in range(num_steps)` loop of `run_simulation`: look up the
current state, execute the step (its timestamp drawn from the clock), add
it to the stored simulation, then sample the next state name. The oracles
are indexed by the step counter `i`: `oracle i` gives step `i`'s network
outcomes, `completion i` its completion order, `rand i` the value drawn by
`random.random()`. -/
def runSteps (chain : MarkovChain) (agents : List Agent)
    (oracle : ℕ → Agent → Except NotifyError AgentResponse)
    (completion : ℕ → List ℕ) (rand : ℕ → ℚ) (simId : ℕ) :
    ℕ → ℕ → String → DB → Except SimError Unit × DB
  | 0, _, _, db => (Except.ok (), db)
  | k + 1, i, currentName, db =>
    match alookup currentName chain.states with
    | none => (Except.error (SimError.missingState currentName), db)
    | some st =>
      let (ts, db1) := nowTick db
      let step := executeStep st agents (oracle i) ts (completion i)
      let (_, db2) := addStepToSimulation db1 simId step
      let nextName := chooseNextState st (rand i)
      runSteps chain agents oracle completion rand simId k (i + 1) nextName db2

/-- Model of `MarkovSimulator.run_simulation`: resolve the chain (404 if absent),
snapshot the active agents, create and persist an empty simulation, run the
step loop from the chain's initial state, then mark the simulation complete
and return the stored record (asserting it still exists). -/
def runSimulation (chainId numSteps simId : ℕ)
    (oracle : ℕ → Agent → Except NotifyError AgentResponse)
    (completion : ℕ → List ℕ) (rand : ℕ → ℚ) (db : DB) :
    Except SimError Simulation × DB :=
  match getMarkovChain db chainId with
  | none => (Except.error (SimError.chainNotFound chainId), db)
  | some chain =>
    let agents := getActiveAgents db
    let t0 := (nowTick db).1
    let db1 := (nowTick db).2
    let sim : Simulation :=
      { id := simId, chain_id := chainId, steps := [], start_time := t0, end_time := none }
    let db2 := createSimulation db1 sim
    match runSteps chain agents oracle completion rand simId numSteps 0 chain.initial_state db2 with
    | (Except.error e, db3) => (Except.error e, db3)
    | (Except.ok (), db3) =>
      match completeSimulation db3 simId with
      | (none, db4) => (Except.error SimError.simulationRemoved, db4)
      | (some sim', db4) => (Except.ok sim', db4)

/-- The facts the chain validator establishes, as a decidable check: the
initial state is a declared key, every transition target is a declared key,
and every state's weight sum lies in the tolerance band. -/
def chainOk (chain : MarkovChain) : Bool :=
  (alookup chain.initial_state chain.states).isSome &&
  chain.states.all (fun p =>
    p.2.transitions.all (fun t => (alookup t.1 chain.states).isSome) &&
    decide ((99 : ℚ)/100 ≤ (p.2.transitions.map Prod.snd).sum) &&
    decide ((p.2.transitions.map Prod.snd).sum ≤ (101 : ℚ)/100))

/-! ### Helper lemmas about the sampler -/

theorem chooseLoop_eq (r : ℚ) : ∀ (ts : List (String × ℚ)) (c : ℚ),
    chooseLoop ts r c = (specFind ts r c).bind (fun i => (ts.map Prod.fst).get? i) := by
  intro ts
  induction ts with
  | nil => intro c; simp [chooseLoop, specFind]
  | cons hd tl ih =>
    intro c
    obtain ⟨n, p⟩ := hd
    rw [specFind, List.length_cons, List.range_succ_eq_map]
    by_cases h : r ≤ c + p
    · rw [List.find?_cons_of_pos]
      · simp [chooseLoop, h]
      · simpa using h
    · rw [List.find?_cons_of_neg, List.find?_map]
      · have hpred : ((fun i =>
            decide (r ≤ c + ((((n, p) :: tl).take (i + 1)).map Prod.snd).sum)) ∘ Nat.succ)
            = fun i => decide (r ≤ c + p + ((tl.take (i + 1)).map Prod.snd).sum) := by
          funext i
          simp [Function.comp, List.take_succ_cons, add_assoc]
        rw [hpred]
        simp only [chooseLoop, h, if_false]
        rw [ih (c + p), specFind]
        cases hfind : (List.range tl.length).find?
            (fun i => decide (r ≤ c + p + ((tl.take (i + 1)).map Prod.snd).sum)) with
        | none => simp
        | some i => simp
      · simpa using h

theorem chooseLoop_mem (r : ℚ) : ∀ (ts : List (String × ℚ)) (c : ℚ) (n : String),
    chooseLoop ts r c = some n → n ∈ ts.map Prod.fst := by
  intro ts
  induction ts with
  | nil => intro c n h; simp [chooseLoop] at h
  | cons hd tl ih =>
    intro c n h
    rw [chooseLoop] at h
    by_cases hc : r ≤ c + hd.2
    · simp [hc] at h
      simp [← h]
    · simp [hc] at h
      exact List.mem_cons_of_mem _ (ih _ _ h)

/-- For a state with transitions, the sampled next state is always one of
the transition keys. -/
theorem chooseNextState_mem (st : State) (r : ℚ) (hne : st.transitions ≠ []) :
    chooseNextState st r ∈ st.transitions.map Prod.fst := by
  rw [chooseNextState]
  cases hts : st.transitions with
  | nil => exact absurd hts hne
  | cons t ts =>
    cases hloop : chooseLoop (t :: ts) r 0 with
    | some n =>
      simp only [hloop]
      simpa using chooseLoop_mem r (t :: ts) 0 n hloop
    | none =>
      simp only [hloop]
      exact List.getLast_mem _

theorem chooseNextState_eq_specChoose (st : State) (r : ℚ) (hne : st.transitions ≠ []) :
    some (chooseNextState st r) = specChoose st.transitions r := by
  rw [chooseNextState, specChoose]
  cases hts : st.transitions with
  | nil => exact absurd hts hne
  | cons t ts =>
    have hloop := chooseLoop_eq r (t :: ts) 0
    cases hfind : specFind (t :: ts) r 0 with
    | none =>
      rw [hfind] at hloop
      simp only [Option.none_bind] at hloop
      simp only [hloop]
      exact (List.getLast?_eq_getLast _ (by simp)).symm
    | some i =>
      rw [hfind] at hloop
      simp only [Option.some_bind] at hloop
      have hi : i < (t :: ts).length := by
        rw [specFind] at hfind
        have hmem := List.mem_of_find?_eq_some hfind
        simpa [List.mem_range] using hmem
      have hget : ((t :: ts).map Prod.fst).get? i
          = some (((t :: ts).map Prod.fst).get ⟨i, by simpa using hi⟩) :=
        List.get?_eq_get (by simpa using hi)
      rw [hget] at hloop
      simp only [hloop, hget]

/-- The transitions `{A: 0.3, B: 0.3, C: 0.4}` of the spec's sampler
example, in that iteration order. -/
def abcState : State :=
  { name := "s", transitions := [("A", 3/10), ("B", 3/10), ("C", 4/10)],
    http_method := HttpMethod.GET, payload := [] }

/-- C3: for every state with a non-empty transition mapping and every drawn
r in [0, 1), the sampler returns the first transition in iteration order
whose cumulative weight sum is ≥ r, and the last transition in iteration
order when the cumulative sum never reaches r; on `{A: 0.3, B: 0.3, C: 0.4}`
it sends r = 0 and r = 0.29 to A, r = 0.31 to B, r = 0.65 and r = 0.999999
to C. -/
theorem sampler_first_cumulative_or_last :
    (∀ (st : State) (r : ℚ), st.transitions ≠ [] → 0 ≤ r → r < 1 →
      some (chooseNextState st r) = specChoose st.transitions r) ∧
    chooseNextState abcState 0 = "A" ∧
    chooseNextState abcState (29/100) = "A" ∧
    chooseNextState abcState (31/100) = "B" ∧
    chooseNextState abcState (65/100) = "C" ∧
    chooseNextState abcState (999999/1000000) = "C" := by
  refine ⟨fun st r hne _ _ => chooseNextState_eq_specChoose st r hne, ?_, ?_, ?_, ?_, ?_⟩
  all_goals norm_num [chooseNextState, abcState, chooseLoop]

/-- Witness for C3: the general sampler characterization applied to the
concrete `{A: 0.3, B: 0.3, C: 0.4}` state at r = 0.29. -/
theorem sampler_first_cumulative_or_last_witness :
    abcState.transitions ≠ [] ∧ ((0 : ℚ) ≤ 29/100 ∧ (29 : ℚ)/100 < 1) ∧
    some (chooseNextState abcState (29/100)) = specChoose abcState.transitions (29/100) :=
  ⟨by simp [abcState], ⟨by norm_num, by norm_num⟩,
    sampler_first_cumulative_or_last.1 abcState (29/100)
      (by simp [abcState]) (by norm_num) (by norm_num)⟩

/-- C9: for every state whose transition mapping is empty and every drawn
r, the sampler returns the state's own name (a self-loop). -/
theorem sampler_empty_transitions_self_loop (st : State) (r : ℚ)
    (h : st.transitions = []) : chooseNextState st r = st.name := by
  rw [chooseNextState, h]

/-- A concrete terminal state (empty transition mapping). -/
def termState : State :=
  { name := "done", transitions := [], http_method := HttpMethod.GET, payload := [] }

/-- Witness for C9: the concrete terminal state yields itself at r = 0.5. -/
theorem sampler_empty_transitions_self_loop_witness :
    termState.transitions = [] ∧ chooseNextState termState (1/2) = "done" :=
  ⟨rfl, sampler_empty_transitions_self_loop termState (1/2) rfl⟩

/-- The draft of a terminal state: empty transition mapping. -/
def terminalDraft : StateDraft :=
  { name := "terminal", transitions := [], http_method := HttpMethod.GET, payload := [] }

/-- C1 counterexample: constructing a State with an empty transition
mapping does NOT succeed — the weight-sum validator computes total 0 and
rejects it. -/
theorem state_empty_transitions_cex :
    mkState terminalDraft = Except.error (ValidationError.weightSum 0) := by
  norm_num [mkState, terminalDraft, validateTransitions, Except.map]

/-- C1 amended: constructing a State whose transition mapping is empty
fails the weight-sum check, since the empty sum 0 lies outside
[0.99, 1.01]; the validator rejects a terminal/self-looping state at
construction. -/
theorem state_empty_transitions_rejected (nm : String) (m : HttpMethod) (pl : Payload) :
    mkState { name := nm, transitions := [], http_method := m, payload := pl }
      = Except.error (ValidationError.weightSum 0) := by
  norm_num [mkState, validateTransitions, Except.map]

/-! ### Helper lemmas about the concurrent fan-out -/

theorem alookup_arrivals {α : Type} (tasks : List α) :
    ∀ (completion : List ℕ) (i : ℕ), i ∈ completion → i < tasks.length →
      alookup i (arrivals tasks completion) = tasks.get? i := by
  intro completion
  induction completion with
  | nil => intro i hi _; simp at hi
  | cons c cs ih =>
    intro i hi hlen
    rw [arrivals, List.filterMap_cons]
    cases hg : tasks.get? c with
    | some r =>
      simp only [Option.map_some']
      rw [alookup]
      by_cases hic : i = c
      · subst hic
        rw [if_pos rfl, hg]
      · rw [if_neg hic]
        have : i ∈ cs := by
          cases List.mem_cons.mp hi with
          | inl h => exact absurd h hic
          | inr h => exact h
        exact ih i this hlen
    | none =>
      simp only [Option.map_none']
      have hic : i ≠ c := by
        intro h
        subst h
        rw [List.get?_eq_none] at hg
        omega
      have : i ∈ cs := by
        cases List.mem_cons.mp hi with
        | inl h => exact absurd h hic
        | inr h => exact h
      exact ih i this hlen

theorem range_filterMap_get {α : Type} : ∀ (l : List α),
    (List.range l.length).filterMap (fun i => l.get? i) = l := by
  intro l
  induction l with
  | nil => simp
  | cons a as ih =>
    rw [List.length_cons, List.range_succ_eq_map, List.filterMap_cons]
    have h0 : (a :: as).get? 0 = some a := rfl
    rw [h0, List.filterMap_map]
    have hcomp : ((fun i => (a :: as).get? i) ∘ Nat.succ) = fun i => as.get? i := by
      funext i
      simp [List.get?]
    rw [hcomp, ih]

/-- Modelled `asyncio.gather` yields the tasks' results in input order whenever the
completion order is some permutation of the task indices. -/
theorem gather_of_perm {α : Type} (tasks : List α) (completion : List ℕ)
    (hperm : completion.Perm (List.range tasks.length)) :
    gather tasks completion = tasks := by
  rw [gather]
  rw [List.filterMap_congr (g := fun i => tasks.get? i) ?_]
  · exact range_filterMap_get tasks
  · intro i hi
    exact alookup_arrivals tasks completion i (hperm.mem_iff.mpr hi) (List.mem_range.mp hi)

/-- The step executor's recorded responses: for any completion order of the
concurrent calls, the successful outcomes in the agents' snapshot order. -/
theorem executeStep_responses (st : State) (agents : List Agent)
    (oracle : Agent → Except NotifyError AgentResponse) (ts : ℕ) (completion : List ℕ)
    (hperm : completion.Perm (List.range agents.length)) :
    (executeStep st agents oracle ts completion).agent_responses
      = agents.filterMap (fun a => (notifyAgent oracle a).toOption) := by
  rw [executeStep]
  simp only []
  rw [gather_of_perm _ _ (by simpa using hperm), List.filterMap_map]
  rfl

/-- With no agents, a step's recorded response list is empty. -/
theorem executeStep_no_agents (st : State)
    (oracle : Agent → Except NotifyError AgentResponse) (ts : ℕ) (completion : List ℕ) :
    (executeStep st [] oracle ts completion).agent_responses = [] := by
  simp [executeStep, gather, arrivals]

/-- A first registered agent. -/
def agentA : Agent :=
  { id := 1, url := "http://a.example", name := "alpha", description := none,
    created_at := 0, active := true }

/-- A second registered agent. -/
def agentB : Agent :=
  { id := 2, url := "http://b.example", name := "beta", description := none,
    created_at := 0, active := true }

/-- A third registered agent. -/
def agentC : Agent :=
  { id := 3, url := "http://c.example", name := "gamma", description := none,
    created_at := 0, active := true }

/-- The response agent 1 returns. -/
def respA : AgentResponse :=
  { agent_id := 1, agent_name := "alpha", data := [], http_status := 200, latency_ms := 5 }

/-- The response agent 2 returns. -/
def respB : AgentResponse :=
  { agent_id := 2, agent_name := "beta", data := [], http_status := 200, latency_ms := 7 }

/-- The response agent 3 returns. -/
def respC : AgentResponse :=
  { agent_id := 3, agent_name := "gamma", data := [], http_status := 200, latency_ms := 9 }

/-- A network in which both of agents 1 and 2 answer successfully. -/
def twoOkOracle : Agent → Except NotifyError AgentResponse :=
  fun a => if a.id = 1 then Except.ok respA else Except.ok respB

/-- C2 counterexample: with agents [1, 2] and completion order [1, 0]
(agent 2's call completes first), the step's response list is still
[respA, respB] — the registration order — while the completion order of
the calls is [respB, respA]; the two differ, so the response list does not
reflect completion order. -/
theorem step_completion_order_cex :
    (executeStep abcState [agentA, agentB] twoOkOracle 0 [1, 0]).agent_responses
        = [respA, respB] ∧
    completionOrderResponses [agentA, agentB] twoOkOracle [1, 0] = [respB, respA] ∧
    ([respA, respB] : List AgentResponse) ≠ [respB, respA] := by
  refine ⟨?_, ?_, ?_⟩
  · rfl
  · rfl
  · simp [respA, respB]

/-- C2 amended: the response list within a step reflects the registration
order of the agents in the snapshot list — `asyncio.gather` returns results
positionally — and is the same for every completion order of the concurrent
calls, namely the successful responses in snapshot order. -/
theorem step_responses_registration_order (st : State) (agents : List Agent)
    (oracle : Agent → Except NotifyError AgentResponse) (ts : ℕ) (completion : List ℕ)
    (hperm : completion.Perm (List.range agents.length)) :
    (executeStep st agents oracle ts completion).agent_responses
      = agents.filterMap (fun a => (notifyAgent oracle a).toOption) :=
  executeStep_responses st agents oracle ts completion hperm

/-- Witness for the amended C2: the two-agent step with completion order
[1, 0] records the responses in registration order. -/
theorem step_responses_registration_order_witness :
    ([1, 0] : List ℕ).Perm (List.range 2) ∧
    (executeStep abcState [agentA, agentB] twoOkOracle 0 [1, 0]).agent_responses
      = [agentA, agentB].filterMap (fun a => (notifyAgent twoOkOracle a).toOption) :=
  ⟨by decide,
    step_responses_registration_order abcState [agentA, agentB] twoOkOracle 0 [1, 0]
      (by decide)⟩

/-- A network in which agent 2's call times out while agents 1 and 3
answer successfully. -/
def timeoutOracle : Agent → Except NotifyError AgentResponse :=
  fun a =>
    if a.id = 1 then Except.ok respA
    else if a.id = 2 then Except.error NotifyError.timeout
    else Except.ok respC

/-- C8: a step records exactly the successful responses, one per agent
whose notification succeeded and none for agents whose notification raised,
and one agent's failure does not remove the others' responses; in
particular, with three agents of which the second times out, the response
list is exactly the two responses of agents 1 and 3. -/
theorem step_failure_isolation :
    (∀ (st : State) (agents : List Agent)
      (oracle : Agent → Except NotifyError AgentResponse) (ts : ℕ) (completion : List ℕ),
      completion.Perm (List.range agents.length) →
      (executeStep st agents oracle ts completion).agent_responses
        = agents.filterMap (fun a => (notifyAgent oracle a).toOption)) ∧
    (∀ (st : State) (a1 a2 a3 : Agent) (r1 r3 : AgentResponse)
      (oracle : Agent → Except NotifyError AgentResponse) (ts : ℕ) (completion : List ℕ),
      completion.Perm (List.range 3) →
      notifyAgent oracle a1 = Except.ok r1 →
      notifyAgent oracle a2 = Except.error NotifyError.timeout →
      notifyAgent oracle a3 = Except.ok r3 →
      (executeStep st [a1, a2, a3] oracle ts completion).agent_responses = [r1, r3]) := by
  refine ⟨fun st agents oracle ts completion h =>
    executeStep_responses st agents oracle ts completion h, ?_⟩
  intro st a1 a2 a3 r1 r3 oracle ts completion hperm h1 h2 h3
  rw [executeStep_responses st [a1, a2, a3] oracle ts completion (by simpa using hperm)]
  simp [h1, h2, h3, Except.toOption]

/-- Witness for C8: three concrete agents, the second timing out, with
completion order [2, 0, 1]; the step records exactly agents 1 and 3's
responses. -/
theorem step_failure_isolation_witness :
    ([2, 0, 1] : List ℕ).Perm (List.range 3) ∧
    notifyAgent timeoutOracle agentA = Except.ok respA ∧
    notifyAgent timeoutOracle agentB = Except.error NotifyError.timeout ∧
    notifyAgent timeoutOracle agentC = Except.ok respC ∧
    (executeStep abcState [agentA, agentB, agentC] timeoutOracle 0 [2, 0, 1]).agent_responses
      = [respA, respC] :=
  ⟨by decide, rfl, rfl, rfl,
    step_failure_isolation.2 abcState agentA agentB agentC respA respC timeoutOracle 0
      [2, 0, 1] (by decide) rfl rfl rfl⟩

/-- C10: every agent in the snapshot taken by `run_simulation` comes from
`get_active_agents`, so its active flag is set and the assertion guarding
`_notify_agent` passes — the notification proceeds to the network call. -/
theorem notify_assertion_never_fails (db : DB)
    (oracle : Agent → Except NotifyError AgentResponse) (a : Agent)
    (ha : a ∈ getActiveAgents db) :
    a.active = true ∧ notifyAgent oracle a = oracle a := by
  have hact : a.active = true := by
    have := (List.mem_filter.mp ha).2
    simpa using this
  exact ⟨hact, by rw [notifyAgent, if_pos hact]⟩

/-- A store holding one active agent, used to witness C10. -/
def dbOneAgent : DB :=
  { markov_chains := [], agents := [(1, agentA)], simulations := [], clock := 0 }

/-- Witness for C10: the concrete active agent of `dbOneAgent` is in the
snapshot, its flag is set, and the assertion passes. -/
theorem notify_assertion_never_fails_witness :
    agentA ∈ getActiveAgents dbOneAgent ∧
    agentA.active = true ∧ notifyAgent timeoutOracle agentA = timeoutOracle agentA :=
  ⟨by decide,
    notify_assertion_never_fails dbOneAgent timeoutOracle agentA (by decide)⟩

/-! ### Helper lemmas about the validator -/

/-- The tolerance band of the weight-sum validator. -/
def weightSumOk (ts : List (String × ℚ)) : Prop :=
  (99 : ℚ)/100 ≤ (ts.map Prod.snd).sum ∧ (ts.map Prod.snd).sum ≤ (101 : ℚ)/100

/-- The State a draft validates to: all fields copied unchanged. -/
def stateOfDraft (d : StateDraft) : State :=
  { name := d.name, transitions := d.transitions,
    http_method := d.http_method, payload := d.payload }

theorem mkState_ok (d : StateDraft) (s : State) :
    mkState d = Except.ok s ↔ weightSumOk d.transitions ∧ s = stateOfDraft d := by
  rw [mkState, validateTransitions, weightSumOk, stateOfDraft]
  split_ifs with h
  · simp [Except.map, eq_comm, h]
  · simp [Except.map, h]

theorem mkState_error (d : StateDraft) (h : ¬ weightSumOk d.transitions) :
    mkState d = Except.error (ValidationError.weightSum ((d.transitions.map Prod.snd).sum)) := by
  rw [weightSumOk] at h
  simp only [mkState, validateTransitions, Except.map, if_neg h]

theorem buildStates_ok : ∀ (drafts : List (String × StateDraft))
    (states : List (String × State)), buildStates drafts = Except.ok states →
    states = drafts.map (fun p => (p.1, stateOfDraft p.2)) ∧
      ∀ p ∈ drafts, weightSumOk p.2.transitions := by
  intro drafts
  induction drafts with
  | nil =>
    intro states h
    rw [buildStates] at h
    cases h
    simp
  | cons hd tl ih =>
    intro states h
    obtain ⟨n, d⟩ := hd
    rw [buildStates] at h
    cases hmk : mkState d with
    | error e => rw [hmk] at h; cases h
    | ok s =>
      rw [hmk] at h
      cases hbs : buildStates tl with
      | error e => rw [hbs] at h; cases h
      | ok ss =>
        rw [hbs] at h
        cases h
        obtain ⟨hsum, hs⟩ := (mkState_ok d s).mp hmk
        obtain ⟨hmap, hall⟩ := ih ss hbs
        subst hs
        refine ⟨by simp [hmap], ?_⟩
        intro p hp
        cases List.mem_cons.mp hp with
        | inl hph => subst hph; exact hsum
        | inr hpt => exact hall p hpt

theorem alookup_isSome_iff {α : Type} (k : String) (l : List (String × α)) :
    (alookup k l).isSome = true ↔ k ∈ l.map Prod.fst := by
  induction l with
  | nil => simp [alookup]
  | cons hd tl ih =>
    rw [alookup]
    by_cases h : k = hd.1
    · simp [h]
    · simp only [if_neg h, List.map_cons, List.mem_cons]
      rw [ih]
      constructor
      · exact Or.inr
      · intro hor
        cases hor with
        | inl heq => exact absurd heq h
        | inr hmem => exact hmem

theorem findDangling_none (keys : List String) :
    ∀ (states : List (String × State)), findDangling keys states = none →
    ∀ p ∈ states, ∀ t ∈ p.2.transitions, keys.contains t.1 = true := by
  intro states
  induction states with
  | nil => intro _ p hp; simp at hp
  | cons hd tl ih =>
    intro h p hp t ht
    rw [findDangling] at h
    cases hfind : hd.2.transitions.find? (fun t => ¬ keys.contains t.1) with
    | some t' => rw [hfind] at h; cases h
    | none =>
      rw [hfind] at h
      cases List.mem_cons.mp hp with
      | inl hph =>
        subst hph
        have := List.find?_eq_none.mp hfind t ht
        simpa using this
      | inr hpt => exact ih h p hpt t ht

theorem findDangling_some (keys : List String) :
    ∀ (states : List (String × State)) (p : String × State) (t : String × ℚ),
      p ∈ states → t ∈ p.2.transitions → keys.contains t.1 = false →
      ∃ x, findDangling keys states = some x := by
  intro states
  induction states with
  | nil => intro p t hp; simp at hp
  | cons hd tl ih =>
    intro p t hp ht hcontains
    rw [findDangling]
    cases hfind : hd.2.transitions.find? (fun t => ¬ keys.contains t.1) with
    | some t' => exact ⟨(hd.1, t'.1), rfl⟩
    | none =>
      cases List.mem_cons.mp hp with
      | inl hph =>
        subst hph
        have hmem := List.find?_eq_none.mp hfind t ht
        have hcon : t.1 ∈ keys := by simpa using hmem
        exact absurd hcon (by simpa using hcontains)
      | inr hpt => exact ih p t hpt ht hcontains

/-- Everything a successful chain construction guarantees: the states are
the drafts' states unchanged, the initial state resolves, every transition
target resolves, and every draft passed the weight-sum check. -/
theorem mkMarkovChain_ok (id : ℕ) (drafts : List (String × StateDraft)) (initial : String)
    (nm ds : Option String) (chain : MarkovChain)
    (h : mkMarkovChain id drafts initial nm ds = Except.ok chain) :
    chain.states = drafts.map (fun p => (p.1, stateOfDraft p.2)) ∧
    chain.initial_state = initial ∧
    (alookup chain.initial_state chain.states).isSome = true ∧
    (∀ p ∈ chain.states, ∀ t ∈ p.2.transitions, (alookup t.1 chain.states).isSome = true) ∧
    (∀ p ∈ drafts, weightSumOk p.2.transitions) := by
  rw [mkMarkovChain] at h
  cases hbs : buildStates drafts with
  | error e => rw [hbs] at h; cases h
  | ok states =>
    rw [hbs] at h
    dsimp only at h
    obtain ⟨hmap, hsums⟩ := buildStates_ok drafts states hbs
    by_cases hinit : (alookup initial states).isSome = true
    · rw [if_pos hinit] at h
      cases hfd : findDangling (states.map Prod.fst) states with
      | some x => obtain ⟨x1, x2⟩ := x; rw [hfd] at h; cases h
      | none =>
        rw [hfd] at h
        cases h
        refine ⟨hmap, rfl, hinit, ?_, hsums⟩
        intro p hp t ht
        have hcont := findDangling_none (states.map Prod.fst) states hfd p hp t ht
        rw [alookup_isSome_iff]
        simpa using hcont
    · rw [if_neg hinit] at h; cases h

/-- C5: chain construction fails whenever some state's transition-weight
sum lies outside [0.99, 1.01]; every accepted chain has all its states'
weight sums inside [0.99, 1.01], and the accepted states carry the drafts'
transition weights unchanged (no normalization or rescaling). -/
theorem chain_weight_sum_enforced :
    (∀ (id : ℕ) (drafts : List (String × StateDraft)) (initial : String) (nm ds : Option String),
      (∃ p ∈ drafts, ¬ weightSumOk p.2.transitions) →
      ∃ e, mkMarkovChain id drafts initial nm ds = Except.error e) ∧
    (∀ (id : ℕ) (drafts : List (String × StateDraft)) (initial : String) (nm ds : Option String)
      (chain : MarkovChain), mkMarkovChain id drafts initial nm ds = Except.ok chain →
      (∀ p ∈ chain.states, weightSumOk p.2.transitions) ∧
      chain.states = drafts.map (fun p => (p.1, stateOfDraft p.2))) := by
  constructor
  · intro id drafts initial nm ds ⟨p, hp, hbad⟩
    cases hbs : buildStates drafts with
    | error e => exact ⟨e, by rw [mkMarkovChain, hbs]⟩
    | ok states =>
      obtain ⟨_, hsums⟩ := buildStates_ok drafts states hbs
      exact absurd (hsums p hp) hbad
  · intro id drafts initial nm ds chain h
    obtain ⟨hmap, _, _, _, hsums⟩ := mkMarkovChain_ok id drafts initial nm ds chain h
    refine ⟨?_, hmap⟩
    intro q hq
    rw [hmap] at hq
    obtain ⟨p, hp, hpq⟩ := List.mem_map.mp hq
    have := hsums p hp
    rw [← hpq]
    simpa [stateOfDraft] using this

/-- A draft whose weights sum to 0.9, outside the tolerance band. -/
def badDraft : StateDraft :=
  { name := "a", transitions := [("a", 9/10)], http_method := HttpMethod.GET, payload := [] }

/-- Witness for C5: a one-state draft with weight sum 0.9 makes chain
construction fail. -/
theorem chain_weight_sum_enforced_witness :
    (∃ p ∈ [("a", badDraft)], ¬ weightSumOk p.2.transitions) ∧
    ∃ e, mkMarkovChain 0 [("a", badDraft)] "a" none none = Except.error e := by
  have hbad : ¬ weightSumOk badDraft.transitions := by
    norm_num [weightSumOk, badDraft]
  exact ⟨⟨("a", badDraft), by simp, hbad⟩,
    chain_weight_sum_enforced.1 0 [("a", badDraft)] "a" none none
      ⟨("a", badDraft), by simp, hbad⟩⟩

/-- C6: every accepted chain's initial state and transition targets are
keys of its state mapping, and a draft violating either condition is
rejected at construction. -/
theorem chain_referential_integrity :
    (∀ (id : ℕ) (drafts : List (String × StateDraft)) (initial : String) (nm ds : Option String)
      (chain : MarkovChain), mkMarkovChain id drafts initial nm ds = Except.ok chain →
      (alookup chain.initial_state chain.states).isSome = true ∧
      ∀ p ∈ chain.states, ∀ t ∈ p.2.transitions, (alookup t.1 chain.states).isSome = true) ∧
    (∀ (id : ℕ) (drafts : List (String × StateDraft)) (initial : String) (nm ds : Option String),
      ((alookup initial drafts).isSome = false ∨
        ∃ p ∈ drafts, ∃ t ∈ p.2.transitions, (alookup t.1 drafts).isSome = false) →
      ∃ e, mkMarkovChain id drafts initial nm ds = Except.error e) := by
  constructor
  · intro id drafts initial nm ds chain h
    obtain ⟨_, _, hinit, htargets, _⟩ := mkMarkovChain_ok id drafts initial nm ds chain h
    exact ⟨hinit, htargets⟩
  · intro id drafts initial nm ds hviol
    cases hbs : buildStates drafts with
    | error e => exact ⟨e, by rw [mkMarkovChain, hbs]⟩
    | ok states =>
      obtain ⟨hmap, _⟩ := buildStates_ok drafts states hbs
      have hkeys : states.map Prod.fst = drafts.map Prod.fst := by
        rw [hmap, List.map_map]
        rfl
      cases hviol with
      | inl hinit =>
        have hinit' : ¬ (alookup initial states).isSome = true := by
          rw [alookup_isSome_iff, hkeys, ← alookup_isSome_iff, hinit]
          simp
        exact ⟨ValidationError.initialNotFound initial,
          by rw [mkMarkovChain, hbs]; dsimp only; rw [if_neg hinit']⟩
      | inr hdangling =>
        obtain ⟨p, hp, t, ht, hmiss⟩ := hdangling
        by_cases hinit : (alookup initial states).isSome = true
        · have hqmem : (p.1, stateOfDraft p.2) ∈ states := by
            rw [hmap]
            exact List.mem_map.mpr ⟨p, hp, rfl⟩
          have ht' : t ∈ (stateOfDraft p.2).transitions := ht
          have hnotmem : t.1 ∉ states.map Prod.fst := by
            rw [hkeys, ← alookup_isSome_iff (α := StateDraft)]
            simp [hmiss]
          have hcontains : (states.map Prod.fst).contains t.1 = false := by
            simpa using hnotmem
          obtain ⟨x, hfd⟩ := findDangling_some (states.map Prod.fst) states
            (p.1, stateOfDraft p.2) t hqmem ht' hcontains
          obtain ⟨x1, x2⟩ := x
          exact ⟨ValidationError.danglingTarget x1 x2,
            by rw [mkMarkovChain, hbs]; dsimp only; rw [if_pos hinit, hfd]⟩
        · exact ⟨ValidationError.initialNotFound initial,
            by rw [mkMarkovChain, hbs]; dsimp only; rw [if_neg hinit]⟩

/-- A draft whose only transition targets an undeclared state. -/
def danglingDraft : StateDraft :=
  { name := "a", transitions := [("ghost", 1)], http_method := HttpMethod.GET, payload := [] }

/-- Witness for C6: a draft with a dangling transition target makes chain
construction fail. -/
theorem chain_referential_integrity_witness :
    (∃ p ∈ [("a", danglingDraft)], ∃ t ∈ p.2.transitions,
      (alookup t.1 [("a", danglingDraft)]).isSome = false) ∧
    ∃ e, mkMarkovChain 0 [("a", danglingDraft)] "a" none none = Except.error e := by
  have hviol : ∃ p ∈ [("a", danglingDraft)], ∃ t ∈ p.2.transitions,
      (alookup t.1 [("a", danglingDraft)]).isSome = false := by
    refine ⟨("a", danglingDraft), by simp, ("ghost", 1), by simp [danglingDraft], ?_⟩
    simp [alookup]
  exact ⟨hviol,
    chain_referential_integrity.2 0 [("a", danglingDraft)] "a" none none (Or.inr hviol)⟩

/-! ### Helper lemmas about the store and the driver loop -/

theorem alookup_assocSet_self {κ α : Type} [DecidableEq κ] (k : κ) (v : α) :
    ∀ l : List (κ × α), alookup k (assocSet k v l) = some v := by
  intro l
  induction l with
  | nil => simp [assocSet, alookup]
  | cons hd tl ih =>
    obtain ⟨k', v'⟩ := hd
    rw [assocSet]
    by_cases h : k' = k
    · rw [if_pos h, alookup, if_pos rfl]
    · rw [if_neg h, alookup, if_neg (fun he => h he.symm)]
      exact ih

theorem alookup_mem {κ α : Type} [DecidableEq κ] (k : κ) (v : α) :
    ∀ l : List (κ × α), alookup k l = some v → (k, v) ∈ l := by
  intro l
  induction l with
  | nil => intro h; simp [alookup] at h
  | cons hd tl ih =>
    obtain ⟨k', v'⟩ := hd
    intro h
    rw [alookup] at h
    by_cases hk : k = k'
    · rw [if_pos hk] at h
      cases h
      subst hk
      exact List.mem_cons_self _ _
    · rw [if_neg hk] at h
      exact List.mem_cons_of_mem _ (ih h)

theorem chainOk_initial (chain : MarkovChain) (hok : chainOk chain = true) :
    (alookup chain.initial_state chain.states).isSome = true := by
  rw [chainOk, Bool.and_eq_true] at hok
  exact hok.1

theorem chainOk_state (chain : MarkovChain) (hok : chainOk chain = true)
    (name : String) (st : State) (hst : alookup name chain.states = some st) :
    st.transitions ≠ [] ∧
      ∀ t ∈ st.transitions, (alookup t.1 chain.states).isSome = true := by
  have hmem : (name, st) ∈ chain.states := alookup_mem name st chain.states hst
  rw [chainOk, Bool.and_eq_true, List.all_eq_true] at hok
  have hp := hok.2 (name, st) hmem
  rw [Bool.and_eq_true, Bool.and_eq_true] at hp
  obtain ⟨⟨htargets, hge⟩, _⟩ := hp
  constructor
  · intro hnil
    rw [hnil] at hge
    simp at hge
    norm_num at hge
  · intro t ht
    have := List.all_eq_true.mp htargets t ht
    simpa using this

/-- Starting from a state resolvable in a validated chain, the sampled next
state is also resolvable. -/
theorem chainOk_next (chain : MarkovChain) (hok : chainOk chain = true)
    (name : String) (st : State) (hst : alookup name chain.states = some st) (r : ℚ) :
    (alookup (chooseNextState st r) chain.states).isSome = true := by
  obtain ⟨hne, htargets⟩ := chainOk_state chain hok name st hst
  obtain ⟨t, ht, hteq⟩ := List.mem_map.mp (chooseNextState_mem st r hne)
  rw [← hteq]
  exact htargets t ht

theorem addStep_found (db : DB) (simId : ℕ) (sim : Simulation) (step : SimulationStep)
    (hsim : alookup simId db.simulations = some sim) :
    addStepToSimulation db simId step
      = (some { sim with steps := sim.steps ++ [step] },
         { db with simulations :=
            assocSet simId { sim with steps := sim.steps ++ [step] } db.simulations }) := by
  rw [addStepToSimulation, hsim]

theorem completeSim_found (db : DB) (simId : ℕ) (sim : Simulation)
    (hsim : alookup simId db.simulations = some sim) :
    completeSimulation db simId
      = (some { sim with end_time := some db.clock },
         { db with clock := db.clock + 1, simulations := assocSet simId { sim with end_time := some db.clock } db.simulations }) := by
  rw [completeSimulation, hsim]
  rfl

theorem runSteps_succ (chain : MarkovChain) (agents : List Agent)
    (oracle : ℕ → Agent → Except NotifyError AgentResponse)
    (completion : ℕ → List ℕ) (rand : ℕ → ℚ) (simId : ℕ)
    (k i : ℕ) (name : String) (db : DB) (st : State)
    (hst : alookup name chain.states = some st) :
    runSteps chain agents oracle completion rand simId (k + 1) i name db
      = runSteps chain agents oracle completion rand simId k (i + 1)
          (chooseNextState st (rand i))
          (addStepToSimulation { db with clock := db.clock + 1 } simId
            (executeStep st agents (oracle i) db.clock (completion i))).2 := by
  simp only [runSteps, hst]
  rfl

/-- C7: when the chain id does not resolve, `run_simulation` fails with the
chain-not-found error and leaves the store exactly as it was — no
Simulation record is created. -/
theorem run_unknown_chain_no_mutation (db : DB) (chainId numSteps simId : ℕ)
    (oracle : ℕ → Agent → Except NotifyError AgentResponse)
    (completion : ℕ → List ℕ) (rand : ℕ → ℚ)
    (h : getMarkovChain db chainId = none) :
    runSimulation chainId numSteps simId oracle completion rand db
      = (Except.error (SimError.chainNotFound chainId), db) := by
  rw [runSimulation, h]

/-- Witness for C7: on a store with no chains, running chain id 7 fails
with chain-not-found and returns the store unchanged. -/
theorem run_unknown_chain_no_mutation_witness :
    getMarkovChain dbOneAgent 7 = none ∧
    runSimulation 7 5 0 (fun _ => timeoutOracle) (fun _ => [0]) (fun _ => 0) dbOneAgent
      = (Except.error (SimError.chainNotFound 7), dbOneAgent) :=
  ⟨rfl, run_unknown_chain_no_mutation dbOneAgent 7 5 0
    (fun _ => timeoutOracle) (fun _ => [0]) (fun _ => 0) rfl⟩

/-- Invariant of the driver loop: over a validated chain it never fails,
appends exactly one step per iteration to the stored simulation, never
moves the clock backwards, and every appended step is a step-executor
result over the snapshot agents. -/
theorem runSteps_ok (chain : MarkovChain) (agents : List Agent)
    (oracle : ℕ → Agent → Except NotifyError AgentResponse)
    (completion : ℕ → List ℕ) (rand : ℕ → ℚ) (simId : ℕ)
    (hok : chainOk chain = true) :
    ∀ (k i : ℕ) (name : String) (db : DB) (sim : Simulation),
      (alookup name chain.states).isSome = true →
      alookup simId db.simulations = some sim →
      ∃ (db' : DB) (newSteps : List SimulationStep),
        runSteps chain agents oracle completion rand simId k i name db
          = (Except.ok (), db') ∧
        alookup simId db'.simulations = some { sim with steps := sim.steps ++ newSteps } ∧
        newSteps.length = k ∧
        db.clock ≤ db'.clock ∧
        ∀ s ∈ newSteps, ∃ (stt : State) (j ts : ℕ),
          s = executeStep stt agents (oracle j) ts (completion j) := by
  intro k
  induction k with
  | zero =>
    intro i name db sim _ hsim
    refine ⟨db, [], rfl, ?_, rfl, le_refl _, by simp⟩
    rw [List.append_nil]
    exact hsim
  | succ k ih =>
    intro i name db sim hname hsim
    cases hst : alookup name chain.states with
    | none => rw [hst] at hname; simp at hname
    | some st =>
      rw [runSteps_succ chain agents oracle completion rand simId k i name db st hst]
      set step := executeStep st agents (oracle i) db.clock (completion i) with hstep
      set sim1 : Simulation := { sim with steps := sim.steps ++ [step] } with hsim1
      have hadd := addStep_found { db with clock := db.clock + 1 } simId sim step hsim
      rw [hadd]
      have hsim2 : alookup simId (assocSet simId sim1 db.simulations) = some sim1 :=
        alookup_assocSet_self simId sim1 db.simulations
      obtain ⟨db', newSteps, hrun, hstore, hlen, hclock, hsteps⟩ :=
        ih (i + 1) (chooseNextState st (rand i))
          { db with clock := db.clock + 1, simulations := assocSet simId sim1 db.simulations }
          sim1 (chainOk_next chain hok name st hst (rand i)) hsim2
      refine ⟨db', step :: newSteps, hrun, ?_, by simp [hlen], ?_, ?_⟩
      · rw [hstore, hsim1]
        simp
      · calc db.clock ≤ db.clock + 1 := Nat.le_succ _
          _ ≤ db'.clock := hclock
      · intro s hs
        cases List.mem_cons.mp hs with
        | inl hh => exact ⟨st, i, db.clock, by rw [hh, hstep]⟩
        | inr ht => exact hsteps s ht

/-- The empty simulation record created by `run_simulation` before the
loop starts: id and chain id set, no steps, start time read off the clock. -/
def freshSim (chainId simId t0 : ℕ) : Simulation :=
  { id := simId, chain_id := chainId, steps := [], start_time := t0, end_time := none }

/-- C4: over a chain that resolves and satisfies the validator's
invariants, `run_simulation` always succeeds with a Simulation of exactly
`numSteps` steps and a non-null end time ≥ its start time — the loop runs
exactly `numSteps` iterations whatever states are visited — and with zero
registered agents every step's response list is empty. -/
theorem run_simulation_completes (db : DB) (chainId numSteps simId : ℕ)
    (oracle : ℕ → Agent → Except NotifyError AgentResponse)
    (completion : ℕ → List ℕ) (rand : ℕ → ℚ) (chain : MarkovChain)
    (hchain : getMarkovChain db chainId = some chain) (hok : chainOk chain = true) :
    ∃ (sim : Simulation) (db' : DB),
      runSimulation chainId numSteps simId oracle completion rand db
        = (Except.ok sim, db') ∧
      sim.steps.length = numSteps ∧
      (∃ te, sim.end_time = some te ∧ sim.start_time ≤ te) ∧
      (getActiveAgents db = [] → ∀ s ∈ sim.steps, s.agent_responses = []) := by
  have hinitsome : (alookup chain.initial_state chain.states).isSome = true :=
    chainOk_initial chain hok
  have hstore0 : alookup simId
      (createSimulation { db with clock := db.clock + 1 }
        (freshSim chainId simId db.clock)).simulations
      = some (freshSim chainId simId db.clock) :=
    alookup_assocSet_self simId (freshSim chainId simId db.clock) db.simulations
  obtain ⟨db', newSteps, hrun, hstoreFin, hlen, hclock, hsteps⟩ :=
    runSteps_ok chain (getActiveAgents db) oracle completion rand simId hok
      numSteps 0 chain.initial_state
      (createSimulation { db with clock := db.clock + 1 } (freshSim chainId simId db.clock))
      (freshSim chainId simId db.clock) hinitsome hstore0
  have hcomp := completeSim_found db' simId _ hstoreFin
  have hmain : runSimulation chainId numSteps simId oracle completion rand db
      = ((Except.ok { id := simId, chain_id := chainId, steps := newSteps, start_time := db.clock, end_time := some db'.clock } : Except SimError Simulation), (completeSimulation db' simId).2) := by
    simp only [freshSim] at hrun
    rw [runSimulation, hchain]
    dsimp only [nowTick]
    rw [hrun]
    dsimp only
    rw [hcomp]
    rfl
  refine ⟨_, _, hmain, ?_, ?_, ?_⟩
  · simpa using hlen
  · refine ⟨db'.clock, rfl, ?_⟩
    show db.clock ≤ db'.clock
    have h1 : db.clock + 1 ≤ db'.clock := hclock
    omega
  · intro hag s hs
    obtain ⟨stt, j, ts, hs_eq⟩ := hsteps s hs
    rw [hs_eq, hag]
    exact executeStep_no_agents stt (oracle j) ts (completion j)

/-- A state that always transitions to itself with weight 1. -/
def loopState : State :=
  { name := "a", transitions := [("a", 1)], http_method := HttpMethod.GET, payload := [] }

/-- A one-state chain over `loopState`. -/
def loopChain : MarkovChain :=
  { id := 5, states := [("a", loopState)], initial_state := "a",
    name := none, description := none }

/-- A store holding only `loopChain`, with no agents registered. -/
def dbWithChain : DB :=
  { markov_chains := [(5, loopChain)], agents := [], simulations := [], clock := 0 }

/-- Witness for C4: running 3 steps over the concrete one-state chain with
zero agents succeeds with 3 steps, a finalized end time, and empty response
lists. -/
theorem run_simulation_completes_witness :
    getMarkovChain dbWithChain 5 = some loopChain ∧ chainOk loopChain = true ∧
    ∃ (sim : Simulation) (db' : DB),
      runSimulation 5 3 9 (fun _ => timeoutOracle) (fun _ => []) (fun _ => 0) dbWithChain
        = (Except.ok sim, db') ∧
      sim.steps.length = 3 ∧
      (∃ te, sim.end_time = some te ∧ sim.start_time ≤ te) ∧
      (getActiveAgents dbWithChain = [] → ∀ s ∈ sim.steps, s.agent_responses = []) := by
  have h1 : getMarkovChain dbWithChain 5 = some loopChain := rfl
  have h2 : chainOk loopChain = true := by
    norm_num [chainOk, loopChain, loopState, alookup]
  exact ⟨h1, h2, run_simulation_completes dbWithChain 5 3 9
    (fun _ => timeoutOracle) (fun _ => []) (fun _ => 0) loopChain h1 h2⟩

end MChain
